import Mathlib

/-!
Shallow embedding of the discovery and diff-driven check-selection engine of
the bulletproof pre-push guardian, with theorems checking the specification
claims against the embedded code.

Pure string and list computations are translated directly from the source.
Filesystem reads, JSON parsing and process invocations are abstracted into
explicit inputs (the parsed manifest map, the byte contents of a file, the
outcome of a git command), so that every embedded function is a total,
executable Lean function.
-/

namespace Bulletproof

/-! ### String helpers modelling the JavaScript string operations used by the source -/

/-- Lowercase a string character by character, as `toLowerCase` does for ASCII names. -/
def toLowerStr (s : String) : String := ⟨s.data.map Char.toLower⟩

/-- Whether the second string occurs at the start of the first, as `startsWith`. -/
def strStartsWith (s p : String) : Bool := p.data.isPrefixOf s.data

/-- Whether the second string occurs at the end of the first, as `endsWith`. -/
def strEndsWith (s p : String) : Bool := p.data.isSuffixOf s.data

/-- Whether a list occurs as a contiguous run inside another list. -/
def hasSubRun {α : Type} [BEq α] (pat : List α) : List α → Bool
  | [] => pat.isEmpty
  | c :: cs => pat.isPrefixOf (c :: cs) || hasSubRun pat cs

/-- Whether the second string occurs anywhere inside the first, modelling a
plain-substring regex test such as the watch or preview blacklist rules. -/
def strHasSub (s p : String) : Bool := hasSubRun p.data s.data

/-! ### Script discovery (src/discovery/scripts.ts) -/

/-- Check category types (tests excluded - handled separately). -/
inductive CheckCategory
  | lint
  | typecheck
  | build
  | format
  deriving DecidableEq, Repr

/-- Package manager types. -/
inductive PackageManager
  | npm
  | yarn
  | pnpm
  | bun
  deriving DecidableEq, Repr

/-- Discovered script. -/
structure DiscoveredScript where
  name : String
  command : String
  category : CheckCategory
  runCommand : String
  deriving DecidableEq, Repr

/-- The `scripts` record of a discovery result: one optional entry per category. -/
structure ScriptsRecord where
  lint : Option DiscoveredScript
  typecheck : Option DiscoveredScript
  build : Option DiscoveredScript
  format : Option DiscoveredScript
  deriving DecidableEq, Repr

/-- Read the entry of one category from the scripts record. -/
def ScriptsRecord.getCat (s : ScriptsRecord) : CheckCategory → Option DiscoveredScript
  | .lint => s.lint
  | .typecheck => s.typecheck
  | .build => s.build
  | .format => s.format

/-- Replace the entry of one category in the scripts record. -/
def ScriptsRecord.setCat (s : ScriptsRecord) : CheckCategory → Option DiscoveredScript → ScriptsRecord
  | .lint, v => { s with lint := v }
  | .typecheck, v => { s with typecheck := v }
  | .build, v => { s with build := v }
  | .format, v => { s with format := v }

/-- Script discovery result. -/
structure ScriptDiscoveryResult where
  packageManager : PackageManager
  scripts : ScriptsRecord
  allScripts : List DiscoveredScript
  deriving DecidableEq, Repr

/-- Check execution order. -/
def CHECK_EXECUTION_ORDER : List CheckCategory := [.lint, .format, .typecheck, .build]

/-- Script name patterns for one category: exact names and name prefixes. -/
structure ScriptPatterns where
  exact : List String
  prefixes : List String

/-- Script name patterns for each category. -/
def SCRIPT_PATTERNS : CheckCategory → ScriptPatterns
  | .lint => ⟨["lint", "eslint"], ["lint:"]⟩
  | .typecheck => ⟨["typecheck", "type-check", "tsc", "types"], ["typecheck:", "type-check:"]⟩
  | .build => ⟨["build", "compile"], ["build:"]⟩
  | .format => ⟨["format", "prettier", "fmt"], ["format:"]⟩

/-- Whether a script name matches a blacklist pattern. The source regexes all
carry the case-insensitive flag, so the name is lowercased before the pattern
tests; the five specific dangerous names are compared exactly. -/
def isBlacklisted (scriptName : String) : Bool :=
  let n := toLowerStr scriptName
  strHasSub n "watch" ||
  strEndsWith n "dev" ||
  strEndsWith n ":dev" ||
  strStartsWith n "dev:" ||
  strEndsWith n ":fix" ||
  strEndsWith n "fix" ||
  strEndsWith n ":ci" ||
  strHasSub n "preview" ||
  strHasSub n "serve" ||
  strHasSub n "install" ||
  strHasSub n "postinstall" ||
  strHasSub n "preinstall" ||
  scriptName == "lint-staged" ||
  scriptName == "husky" ||
  scriptName == "prepare" ||
  scriptName == "prepublish" ||
  scriptName == "prepublishOnly"

/-- Categorize a script name: blacklisted names get no category; otherwise the
categories are tried in execution order, exact names before prefixes. -/
def categorizeScript (scriptName : String) : Option CheckCategory :=
  if isBlacklisted scriptName then none
  else
    let lowerName := toLowerStr scriptName
    CHECK_EXECUTION_ORDER.findSome? fun category =>
      let patterns := SCRIPT_PATTERNS category
      if patterns.exact.contains lowerName then some category
      else if patterns.prefixes.any (fun p => strStartsWith lowerName p) then some category
      else none

/-- The run command for a package manager and script name. -/
def getRunCommand : PackageManager → String → String
  | .npm, scriptName => "npm run " ++ scriptName
  | .yarn, scriptName => "yarn " ++ scriptName
  | .pnpm, scriptName => "pnpm run " ++ scriptName
  | .bun, scriptName => "bun run " ++ scriptName

/-- Look up a script command by name in the manifest map. -/
def manifestLookup : List (String × String) → String → Option String
  | [], _ => none
  | (n, c) :: rest, k => if n = k then some c else manifestLookup rest k

/-- Lexicographic comparison of character lists by code point, the order the
default string `sort()` comparator uses. -/
def charListLe : List Char → List Char → Bool
  | [], _ => true
  | _ :: _, [] => false
  | a :: as, b :: bs =>
    if a < b then true
    else if b < a then false
    else charListLe as bs

/-- Lexicographic order on script names. -/
def scriptNameLe (a b : String) : Prop := charListLe a.data b.data = true

instance : DecidableRel scriptNameLe := fun a b => by
  unfold scriptNameLe
  infer_instance

theorem charListLe_total : ∀ a b : List Char, charListLe a b = true ∨ charListLe b a = true
  | [], _ => Or.inl rfl
  | _ :: _, [] => Or.inr rfl
  | a :: as, b :: bs => by
    by_cases hab : a < b
    · exact Or.inl (by simp [charListLe, hab])
    · by_cases hba : b < a
      · exact Or.inr (by simp [charListLe, hba, hab])
      · rcases charListLe_total as bs with h | h
        · exact Or.inl (by simp [charListLe, hab, hba, h])
        · exact Or.inr (by simp [charListLe, hab, hba, h])

theorem charListLe_trans : ∀ a b c : List Char,
    charListLe a b = true → charListLe b c = true → charListLe a c = true
  | [], _, _, _, _ => rfl
  | _ :: _, [], _, h, _ => by simp [charListLe] at h
  | _ :: _, _ :: _, [], _, h => by simp [charListLe] at h
  | a :: as, b :: bs, c :: cs, h1, h2 => by
    simp only [charListLe] at h1 h2 ⊢
    by_cases hab : a < b
    · by_cases hbc : b < c
      · simp [lt_trans hab hbc]
      · by_cases hcb : c < b
        · simp [hbc, hcb] at h2
        · have hbc' : b = c := le_antisymm (not_lt.mp hcb) (not_lt.mp hbc)
          simp [hbc' ▸ hab]
    · by_cases hba : b < a
      · simp [hab, hba] at h1
      · have hab' : a = b := le_antisymm (not_lt.mp hba) (not_lt.mp hab)
        subst hab'
        simp only [hab, if_neg (lt_irrefl a)] at h1 ⊢
        by_cases hac : a < c
        · simp [hac]
        · by_cases hca : c < a
          · simp [hac, hca] at h2
          · simp only [if_neg hac, if_neg hca] at h2 ⊢
            exact charListLe_trans as bs cs h1 h2

theorem charListLe_antisymm : ∀ a b : List Char,
    charListLe a b = true → charListLe b a = true → a = b
  | [], [], _, _ => rfl
  | [], _ :: _, _, h => by simp [charListLe] at h
  | _ :: _, [], h, _ => by simp [charListLe] at h
  | a :: as, b :: bs, h1, h2 => by
    simp only [charListLe] at h1 h2
    by_cases hab : a < b
    · simp [hab, asymm hab] at h2
    · by_cases hba : b < a
      · simp [hab, hba] at h1
      · have hab' : a = b := le_antisymm (not_lt.mp hba) (not_lt.mp hab)
        subst hab'
        simp only [if_neg hab, if_neg hba] at h1 h2
        rw [charListLe_antisymm as bs h1 h2]

instance : IsTotal String scriptNameLe :=
  ⟨fun a b => charListLe_total a.data b.data⟩

instance : IsTrans String scriptNameLe :=
  ⟨fun a b c => charListLe_trans a.data b.data c.data⟩

instance : IsAntisymm String scriptNameLe :=
  ⟨fun a b h1 h2 => String.ext (charListLe_antisymm a.data b.data h1 h2)⟩

/-- Sort a list of script names, as the deterministic `sort()` over the
manifest keys does (lexicographic order, stable). -/
def sortStrings (l : List String) : List String := l.insertionSort scriptNameLe

/-- Whether a script name is an exact-name match for a category. -/
def isExactFor (category : CheckCategory) (name : String) : Bool :=
  (SCRIPT_PATTERNS category).exact.contains (toLowerStr name)

/-- The empty scripts record: every category absent. -/
def emptyScriptsRecord : ScriptsRecord := ⟨none, none, none, none⟩

/-- The discovered entry built for a script name: the manifest command, the
detected category and the synthesized run command. -/
def mkDiscovered (packageManager : PackageManager) (lookup : String → Option String)
    (scriptName : String) (category : CheckCategory) : DiscoveredScript :=
  ⟨scriptName, (lookup scriptName).getD "", category, getRunCommand packageManager scriptName⟩

/-- One iteration of the discovery loop over a script name: categorize the
name, append a discovered entry to `allScripts`, and keep the first match per
category, replacing it only when the new name is an exact match (the inlined
contains test of the source) and the kept one is not. -/
def discoverStep (packageManager : PackageManager) (lookup : String → Option String)
    (result : ScriptDiscoveryResult) (scriptName : String) : ScriptDiscoveryResult :=
  match categorizeScript scriptName with
  | none => result
  | some category =>
    match result.scripts.getCat category with
    | none =>
      { result with
        scripts := result.scripts.setCat category (some (mkDiscovered packageManager lookup scriptName category)),
        allScripts := result.allScripts ++ [mkDiscovered packageManager lookup scriptName category] }
    | some existing =>
      if isExactFor category scriptName && !(isExactFor category existing.name) then
        { result with
          scripts := result.scripts.setCat category (some (mkDiscovered packageManager lookup scriptName category)),
          allScripts := result.allScripts ++ [mkDiscovered packageManager lookup scriptName category] }
      else
        { result with allScripts := result.allScripts ++ [mkDiscovered packageManager lookup scriptName category] }

/-- Discover check scripts from the parsed scripts map of a package manifest.
The filesystem layers of the source (package manager detection from lockfiles,
manifest reading and JSON parsing) are abstracted into the two arguments; the
script names are processed in deterministic sorted order. -/
def discoverScripts (packageManager : PackageManager) (scripts : List (String × String)) :
    ScriptDiscoveryResult :=
  let scriptNames := sortStrings (scripts.map Prod.fst)
  scriptNames.foldl (discoverStep packageManager (manifestLookup scripts))
    ⟨packageManager, emptyScriptsRecord, []⟩

/-! ### Lemmas about the script discovery fold -/

theorem getCat_setCat_self (s : ScriptsRecord) (c : CheckCategory) (v : Option DiscoveredScript) :
    (s.setCat c v).getCat c = v := by
  cases c <;> rfl

theorem getCat_setCat_ne (s : ScriptsRecord) {c c2 : CheckCategory} (v : Option DiscoveredScript)
    (h : c2 ≠ c) : (s.setCat c2 v).getCat c = s.getCat c := by
  cases c <;> cases c2 <;> simp_all [ScriptsRecord.getCat, ScriptsRecord.setCat]

theorem discoverStep_keeps_exact (pm : PackageManager) (lookup : String → Option String)
    (cat : CheckCategory) (acc : ScriptDiscoveryResult) (n : String) (s : DiscoveredScript)
    (hacc : acc.scripts.getCat cat = some s) (hex : isExactFor cat s.name = true) :
    ∃ t, (discoverStep pm lookup acc n).scripts.getCat cat = some t ∧
      isExactFor cat t.name = true := by
  unfold discoverStep
  split
  · exact ⟨s, hacc, hex⟩
  next category hc =>
    split
    next hacc2 =>
      by_cases hcc : category = cat
      · rw [hcc, hacc] at hacc2
        exact absurd hacc2 (by simp)
      · exact ⟨s, by rw [getCat_setCat_ne _ _ hcc]; exact hacc, hex⟩
    next existing hacc2 =>
      split
      next hrep =>
        by_cases hcc : category = cat
        · subst hcc
          rw [hacc] at hacc2
          obtain rfl : s = existing := by injection hacc2
          rw [hex] at hrep
          simp at hrep
        · exact ⟨s, by rw [getCat_setCat_ne _ _ hcc]; exact hacc, hex⟩
      next hrep =>
        exact ⟨s, hacc, hex⟩

theorem foldl_keeps_exact (pm : PackageManager) (lookup : String → Option String)
    (cat : CheckCategory) :
    ∀ (names : List String) (acc : ScriptDiscoveryResult) (s : DiscoveredScript),
      acc.scripts.getCat cat = some s → isExactFor cat s.name = true →
      ∃ t, ((names.foldl (discoverStep pm lookup) acc)).scripts.getCat cat = some t ∧
        isExactFor cat t.name = true
  | [], acc, s, hacc, hex => ⟨s, hacc, hex⟩
  | m :: rest, acc, s, hacc, hex => by
    obtain ⟨t, ht, hext⟩ := discoverStep_keeps_exact pm lookup cat acc m s hacc hex
    exact foldl_keeps_exact pm lookup cat rest _ t ht hext

theorem foldl_establishes_exact (pm : PackageManager) (lookup : String → Option String)
    (cat : CheckCategory) :
    ∀ (names : List String) (acc : ScriptDiscoveryResult) (n : String), n ∈ names →
      categorizeScript n = some cat → isExactFor cat n = true →
      ∃ t, ((names.foldl (discoverStep pm lookup) acc)).scripts.getCat cat = some t ∧
        isExactFor cat t.name = true
  | [], _, _, hn, _, _ => absurd hn (List.not_mem_nil _)
  | m :: rest, acc, n, hn, hcat, hex => by
    rcases List.mem_cons.mp hn with rfl | hn2
    · have hstep : ∃ t, (discoverStep pm lookup acc n).scripts.getCat cat = some t ∧
          isExactFor cat t.name = true := by
        unfold discoverStep
        split
        next hc => rw [hcat] at hc; exact absurd hc (by simp)
        next category hc =>
          rw [hcat] at hc
          obtain rfl : cat = category := by injection hc
          split
          next hacc => exact ⟨_, getCat_setCat_self _ _ _, hex⟩
          next existing hacc =>
            split
            next hrep => exact ⟨_, getCat_setCat_self _ _ _, hex⟩
            next hrep =>
              rw [hex] at hrep
              simp only [Bool.true_and, Bool.not_eq_true', Bool.not_eq_false] at hrep
              exact ⟨existing, hacc, hrep⟩
      obtain ⟨t, ht, hext⟩ := hstep
      exact foldl_keeps_exact pm lookup cat rest _ t ht hext
    · exact foldl_establishes_exact pm lookup cat rest _ n hn2 hcat hex

theorem manifestLookup_perm {l1 l2 : List (String × String)} (h : l1.Perm l2)
    (hnodup : (l1.map Prod.fst).Nodup) : ∀ k, manifestLookup l1 k = manifestLookup l2 k := by
  induction h with
  | nil => intro k; rfl
  | cons x h ih =>
    intro k
    obtain ⟨n, c⟩ := x
    simp only [List.map_cons, List.nodup_cons] at hnodup
    by_cases hk : n = k
    · simp [manifestLookup, hk]
    · simp only [manifestLookup, if_neg hk]
      exact ih hnodup.2 k
  | swap x y l =>
    intro k
    obtain ⟨nx, cx⟩ := x
    obtain ⟨ny, cy⟩ := y
    simp only [List.map_cons, List.nodup_cons, List.mem_cons] at hnodup
    have hne : ny ≠ nx := fun e => hnodup.1 (Or.inl e)
    by_cases hky : ny = k
    · subst hky
      have hxk : ¬ (nx = ny) := fun e => hne e.symm
      simp [manifestLookup, hxk]
    · by_cases hkx : nx = k
      · simp [manifestLookup, hky, hkx]
      · simp [manifestLookup, hky, hkx]
  | trans h1 h2 ih1 ih2 =>
    intro k
    have hnodup2 : (_ : List (String × String)).map Prod.fst |>.Nodup :=
      ((h1.map Prod.fst).nodup_iff).mp hnodup
    exact (ih1 hnodup k).trans (ih2 hnodup2 k)

theorem sortStrings_perm_eq {l1 l2 : List String} (h : l1.Perm l2) :
    sortStrings l1 = sortStrings l2 :=
  List.eq_of_perm_of_sorted
    ((List.perm_insertionSort _ l1).trans (h.trans (List.perm_insertionSort _ l2).symm))
    (List.sorted_insertionSort _ l1) (List.sorted_insertionSort _ l2)

theorem discoverScripts_perm (pm : PackageManager) {m1 m2 : List (String × String)}
    (h : m1.Perm m2) (hnodup : (m1.map Prod.fst).Nodup) :
    discoverScripts pm m1 = discoverScripts pm m2 := by
  unfold discoverScripts
  rw [sortStrings_perm_eq (h.map Prod.fst), funext (manifestLookup_perm h hnodup)]

/-! ### Claim C3 and C5 theorems -/

/-- C3: every script name matching a blacklist rule is never categorized,
regardless of any category pattern it also matches; consequently, for a
manifest with entries lint:fix and lint, discovery resolves the lint category
to the lint entry and lint:fix never appears in allScripts. -/
theorem C3_blacklist_never_categorized :
    (∀ name : String, isBlacklisted name = true → categorizeScript name = none) ∧
    ∀ cfix clint : String,
      (discoverScripts .npm [("lint:fix", cfix), ("lint", clint)]).scripts.lint =
        some ⟨"lint", clint, .lint, "npm run lint"⟩ ∧
      ∀ s ∈ (discoverScripts .npm [("lint:fix", cfix), ("lint", clint)]).allScripts,
        s.name ≠ "lint:fix" := by
  refine ⟨fun name h => by simp [categorizeScript, h], fun cfix clint => ⟨rfl, ?_⟩⟩
  intro s hs
  have h : (discoverScripts .npm [("lint:fix", cfix), ("lint", clint)]).allScripts =
      [⟨"lint", clint, .lint, "npm run lint"⟩] := rfl
  rw [h] at hs
  rcases List.mem_singleton.mp hs with rfl
  intro e
  exact absurd (show "lint" = "lint:fix" from e) (by decide)

/-- Witness for C3 at the concrete blacklisted name lint:fix, which also
matches the lint prefix pattern. -/
theorem C3_witness : categorizeScript "lint:fix" = none :=
  C3_blacklist_never_categorized.1 "lint:fix" (by decide)

/-- C5: among manifest entries classified into the same category, an entry
whose name is an exact match for the category is preferred over one matched
only by prefix, and the discovery result is independent of the declaration
order of the manifest entries (any permutation of the manifest yields the same
result). -/
theorem C5_exact_match_preferred (pm : PackageManager) (manifest : List (String × String))
    (n1 c1 n2 c2 : String) (cat : CheckCategory)
    (hmem1 : (n1, c1) ∈ manifest) (hmem2 : (n2, c2) ∈ manifest)
    (hnodup : (manifest.map Prod.fst).Nodup)
    (hcat1 : categorizeScript n1 = some cat) (hcat2 : categorizeScript n2 = some cat)
    (hex1 : isExactFor cat n1 = true) (hex2 : isExactFor cat n2 = false) :
    (∃ s, (discoverScripts pm manifest).scripts.getCat cat = some s ∧
      isExactFor cat s.name = true ∧ s.name ≠ n2) ∧
    ∀ manifest2 : List (String × String), manifest2.Perm manifest →
      discoverScripts pm manifest2 = discoverScripts pm manifest := by
  constructor
  · have hmemname : n1 ∈ sortStrings (manifest.map Prod.fst) := by
      unfold sortStrings
      rw [List.mem_insertionSort]
      exact List.mem_map_of_mem Prod.fst hmem1
    obtain ⟨t, ht, hext⟩ := foldl_establishes_exact pm (manifestLookup manifest) cat
      (sortStrings (manifest.map Prod.fst)) ⟨pm, emptyScriptsRecord, []⟩ n1 hmemname hcat1 hex1
    refine ⟨t, ht, hext, fun e => ?_⟩
    rw [e, hex2] at hext
    exact Bool.false_ne_true hext
  · intro manifest2 hperm
    exact discoverScripts_perm pm hperm (((hperm.map Prod.fst).nodup_iff).mpr hnodup)

/-- Witness for C5 at a concrete manifest with an exact lint entry and a
prefix-only lint:css entry. -/
theorem C5_witness :
    ∃ s, (discoverScripts .npm [("lint:css", "a"), ("lint", "b")]).scripts.getCat .lint = some s ∧
      isExactFor .lint s.name = true ∧ s.name ≠ "lint:css" :=
  (C5_exact_match_preferred .npm [("lint:css", "a"), ("lint", "b")] "lint" "b" "lint:css" "a"
    .lint (by decide) (by decide) (by decide) (by decide) (by decide) (by decide) (by decide)).1

/-! ### Convention discovery (src/discovery/conventions.ts) -/

/-- Convention file types in priority order (highest to lowest). -/
inductive ConventionType
  | claudeMd
  | cursorrules
  | cursorRulesDir
  | claudeSettings
  deriving DecidableEq, Repr

/-- Discovered convention file. -/
structure ConventionFile where
  path : String
  type : ConventionType
  size : Nat
  content : String
  deriving DecidableEq, Repr

/-- Convention discovery configuration. -/
structure ConventionDiscoveryConfig where
  maxFileSize : Nat
  maxCombinedSize : Nat
  includeSourceMarkers : Bool
  deriving DecidableEq, Repr

/-- Default convention discovery configuration. -/
def DEFAULT_CONVENTION_CONFIG : ConventionDiscoveryConfig := ⟨100 * 1024, 200 * 1024, true⟩

/-- Marker appended to truncated content, as its list of ASCII byte values. -/
def truncationMarker : List Nat := "\n... [truncated]".data.map Char.toNat

/-- Whether a byte is a UTF-8 continuation byte. -/
def isUtf8Cont (b : Nat) : Bool := 128 ≤ b && b ≤ 191

/-- Structural UTF-8 validity of a byte list: a decode of an invalid sequence
would produce a replacement character. -/
def utf8Valid : List Nat → Bool
  | [] => true
  | b :: rest =>
    if b ≤ 127 then utf8Valid rest
    else if 194 ≤ b && b ≤ 223 then
      match rest with
      | b1 :: rest1 => isUtf8Cont b1 && utf8Valid rest1
      | [] => false
    else if b == 224 then
      match rest with
      | b1 :: b2 :: rest2 => (160 ≤ b1 && b1 ≤ 191) && isUtf8Cont b2 && utf8Valid rest2
      | _ => false
    else if (225 ≤ b && b ≤ 236) || b == 238 || b == 239 then
      match rest with
      | b1 :: b2 :: rest2 => isUtf8Cont b1 && isUtf8Cont b2 && utf8Valid rest2
      | _ => false
    else if b == 237 then
      match rest with
      | b1 :: b2 :: rest2 => (128 ≤ b1 && b1 ≤ 159) && isUtf8Cont b2 && utf8Valid rest2
      | _ => false
    else if b == 240 then
      match rest with
      | b1 :: b2 :: b3 :: rest3 =>
        (144 ≤ b1 && b1 ≤ 191) && isUtf8Cont b2 && isUtf8Cont b3 && utf8Valid rest3
      | _ => false
    else if 241 ≤ b && b ≤ 243 then
      match rest with
      | b1 :: b2 :: b3 :: rest3 => isUtf8Cont b1 && isUtf8Cont b2 && isUtf8Cont b3 && utf8Valid rest3
      | _ => false
    else if b == 244 then
      match rest with
      | b1 :: b2 :: b3 :: rest3 =>
        (128 ≤ b1 && b1 ≤ 143) && isUtf8Cont b2 && isUtf8Cont b3 && utf8Valid rest3
      | _ => false
    else false

/-- A byte buffer is a valid text file when it has no NUL byte and its decode
contains no replacement character: the buffer must be structurally valid UTF-8
and must not contain an encoded replacement character (bytes 239 191 189). -/
def isValidTextFile (buffer : List Nat) : Bool :=
  !buffer.contains 0 && utf8Valid buffer && !hasSubRun [239, 191, 189] buffer

/-- Result of loading one file: its possibly truncated content bytes, the
original byte length, and the truncation flag. -/
structure LoadResult where
  content : List Nat
  size : Nat
  truncated : Bool
  deriving DecidableEq, Repr

/-- Load content from a file with a size limit. The filesystem layer is
abstracted: the argument is the byte buffer of the file when the path exists,
is safe to read (no circular symlink) and is a regular file, and none
otherwise. Content larger than the limit is cut to that many bytes with the
truncation marker appended; the recorded size is always the original length. -/
def loadFileContent (file : Option (List Nat)) (maxSize : Nat) : Option LoadResult :=
  match file with
  | none => none
  | some buffer =>
    if !isValidTextFile buffer then none
    else if buffer.length > maxSize then
      some ⟨buffer.take maxSize ++ truncationMarker, buffer.length, true⟩
    else
      some ⟨buffer, buffer.length, false⟩

/-- Normalize content for comparison: trim whitespace, normalize line endings. -/
def normalizeContent (s : String) : String := s.trim.replace "\r\n" "\n"

/-- Index of a convention type in the priority order, with the minus-one
convention of indexOf for missing entries. -/
def priorityIndex (priorityOrder : List ConventionType) (t : ConventionType) : Int :=
  match priorityOrder.indexOf? t with
  | some i => (i : Int)
  | none => -1

/-- Sort relation used by deduplication: ascending priority index, the
comparator of the stable sort in the source. -/
def priorityLE (priorityOrder : List ConventionType) (a b : ConventionFile) : Prop :=
  priorityIndex priorityOrder a.type ≤ priorityIndex priorityOrder b.type

instance (p : List ConventionType) : DecidableRel (priorityLE p) := fun a b => by
  unfold priorityLE
  infer_instance

instance (p : List ConventionType) : IsTotal ConventionFile (priorityLE p) :=
  ⟨fun _ _ => Int.le_total _ _⟩

instance (p : List ConventionType) : IsTrans ConventionFile (priorityLE p) :=
  ⟨fun _ _ _ h1 h2 => le_trans h1 h2⟩

/-- Scan of the priority-sorted file list, keeping only the first file with
each normalized content. -/
def dedupScan (seen : List String) : List ConventionFile → List ConventionFile
  | [] => []
  | f :: rest =>
    if normalizeContent f.content ∈ seen then dedupScan seen rest
    else f :: dedupScan (normalizeContent f.content :: seen) rest

/-- Deduplicate content across convention files: with more than one file, sort
by descending priority (stable) and drop any file whose normalized content
already appeared in a higher-priority file. -/
def deduplicateContent (files : List ConventionFile) (priorityOrder : List ConventionType) :
    List ConventionFile :=
  if files.length ≤ 1 then files
  else dedupScan [] (files.insertionSort (priorityLE priorityOrder))

/-- Combine convention files into a single string, with a provenance marker
per file when markers are enabled. -/
def combineConventions (files : List ConventionFile) (includeSourceMarkers : Bool) : String :=
  match files with
  | [] => ""
  | f :: rest =>
    if rest.isEmpty && !includeSourceMarkers then f.content
    else
      String.intercalate "\n\n---\n\n" ((f :: rest).map fun file =>
        if includeSourceMarkers then "# Source: " ++ file.path ++ "\n\n" ++ file.content
        else file.content)

/-- Accumulate the candidate files of one location against the running total:
a file is kept only when adding its recorded size stays within the combined
limit. Returns the kept files and the new running total. -/
def collectDir (maxCombinedSize : Nat) : List ConventionFile → Nat → List ConventionFile × Nat
  | [], total => ([], total)
  | f :: fs, total =>
    if total + f.size ≤ maxCombinedSize then
      let r := collectDir maxCombinedSize fs (total + f.size)
      (f :: r.1, r.2)
    else collectDir maxCombinedSize fs total

/-- Walk the convention locations in priority order, stopping as soon as the
running total has reached the combined limit. Each location contributes the
files its load produced (empty when missing or unreadable, a single file for
the plain-file locations, the directory listing for the rules directory). -/
def collectLocations (maxCombinedSize : Nat) : List (List ConventionFile) → Nat → List ConventionFile
  | [], _ => []
  | loc :: rest, total =>
    if total ≥ maxCombinedSize then []
    else
      let r := collectDir maxCombinedSize loc total
      r.1 ++ collectLocations maxCombinedSize rest r.2

/-- Priority order used for deduplication in discovery. -/
def discoveryPriorityOrder : List ConventionType :=
  [.claudeMd, .cursorrules, .cursorRulesDir, .claudeSettings]

/-- Discover convention files. The filesystem is abstracted into the per
location load results, one list per entry of the fixed location table in its
priority order; the budget loop keeps files within the combined limit and the
collected list is deduplicated. -/
def discoverConventionFilesWith (locResults : List (List ConventionFile))
    (config : ConventionDiscoveryConfig) : List ConventionFile :=
  deduplicateContent (collectLocations config.maxCombinedSize locResults 0) discoveryPriorityOrder

/-- Sum of the recorded sizes of a file list. -/
def sumSizes (files : List ConventionFile) : Nat := (files.map (·.size)).sum

/-! ### Lemmas about the convention budget and deduplication -/

theorem collectDir_spec (maxCombinedSize : Nat) :
    ∀ (fs : List ConventionFile) (total : Nat), total ≤ maxCombinedSize →
      (collectDir maxCombinedSize fs total).2 =
        total + sumSizes (collectDir maxCombinedSize fs total).1 ∧
      (collectDir maxCombinedSize fs total).2 ≤ maxCombinedSize
  | [], total, h => by simp [collectDir, sumSizes, h]
  | f :: fs, total, h => by
    unfold collectDir
    split
    next hkeep =>
      obtain ⟨h1, h2⟩ := collectDir_spec maxCombinedSize fs (total + f.size) hkeep
      refine ⟨?_, h2⟩
      simp only [sumSizes, List.map_cons, List.sum_cons] at h1 ⊢
      omega
    next hskip =>
      exact collectDir_spec maxCombinedSize fs total h

theorem collectLocations_le (maxCombinedSize : Nat) :
    ∀ (locs : List (List ConventionFile)) (total : Nat), total ≤ maxCombinedSize →
      total + sumSizes (collectLocations maxCombinedSize locs total) ≤ maxCombinedSize
  | [], total, h => by simpa [collectLocations, sumSizes] using h
  | loc :: rest, total, h => by
    unfold collectLocations
    split
    next hbreak => simpa [sumSizes] using h
    next hgo =>
      obtain ⟨h1, h2⟩ := collectDir_spec maxCombinedSize loc total h
      have h3 := collectLocations_le maxCombinedSize rest
        (collectDir maxCombinedSize loc total).2 h2
      simp only [sumSizes, List.map_append, List.sum_append] at h1 h3 ⊢
      omega

theorem sumSizes_sublist {l1 l2 : List ConventionFile} (h : List.Sublist l1 l2) :
    sumSizes l1 ≤ sumSizes l2 := by
  induction h with
  | slnil => exact le_refl _
  | cons a h ih => simp only [sumSizes, List.map_cons, List.sum_cons] at ih ⊢; omega
  | cons₂ a h ih => simp only [sumSizes, List.map_cons, List.sum_cons] at ih ⊢; omega

theorem sumSizes_perm {l1 l2 : List ConventionFile} (h : l1.Perm l2) :
    sumSizes l1 = sumSizes l2 := (h.map _).sum_eq

theorem dedupScan_sublist : ∀ (seen : List String) (l : List ConventionFile),
    List.Sublist (dedupScan seen l) l
  | _, [] => List.Sublist.refl _
  | seen, f :: rest => by
    unfold dedupScan
    split
    · exact (dedupScan_sublist seen rest).cons f
    · exact (dedupScan_sublist _ rest).cons₂ f

theorem deduplicateContent_sumSizes_le (files : List ConventionFile)
    (priorityOrder : List ConventionType) :
    sumSizes (deduplicateContent files priorityOrder) ≤ sumSizes files := by
  unfold deduplicateContent
  split
  · exact le_refl _
  · exact le_of_le_of_eq
      (sumSizes_sublist (dedupScan_sublist [] _))
      (sumSizes_perm (List.perm_insertionSort _ files))

theorem dedupScan_not_seen : ∀ (seen : List String) (l : List ConventionFile)
    (f : ConventionFile), f ∈ dedupScan seen l → normalizeContent f.content ∉ seen
  | seen, [], f, hf => absurd hf (List.not_mem_nil f)
  | seen, g :: rest, f, hf => by
    unfold dedupScan at hf
    split at hf
    · exact dedupScan_not_seen seen rest f hf
    · rcases List.mem_cons.mp hf with rfl | hf2
      · assumption
      · have h := dedupScan_not_seen _ rest f hf2
        exact fun hin => h (List.mem_cons_of_mem _ hin)

theorem dedupScan_nodupNorm : ∀ (seen : List String) (l : List ConventionFile),
    ((dedupScan seen l).map fun f => normalizeContent f.content).Nodup
  | seen, [] => List.nodup_nil
  | seen, g :: rest => by
    unfold dedupScan
    split
    · exact dedupScan_nodupNorm seen rest
    · simp only [List.map_cons, List.nodup_cons]
      refine ⟨fun hmem => ?_, dedupScan_nodupNorm _ rest⟩
      obtain ⟨f, hf, hnorm⟩ := List.mem_map.mp hmem
      exact dedupScan_not_seen _ rest f hf (hnorm ▸ List.mem_cons_self _ _)

theorem dedupScan_id : ∀ (seen : List String) (l : List ConventionFile),
    ((l.map fun f => normalizeContent f.content).Nodup) →
    (∀ f ∈ l, normalizeContent f.content ∉ seen) →
    dedupScan seen l = l
  | _, [], _, _ => rfl
  | seen, g :: rest, hnodup, hseen => by
    simp only [List.map_cons, List.nodup_cons] at hnodup
    unfold dedupScan
    rw [if_neg (hseen g (List.mem_cons_self g rest))]
    congr 1
    refine dedupScan_id _ rest hnodup.2 fun f hf hin => ?_
    rcases List.mem_cons.mp hin with heq | hin2
    · exact hnodup.1 (heq ▸ List.mem_map_of_mem _ hf)
    · exact hseen f (List.mem_cons_of_mem g hf) hin2

/-! ### Claim C4, C8 and C10 theorems -/

/-- C4: the sum of the recorded sizes of the files kept by convention
discovery never exceeds the combined limit, for any load results; and a loaded
file records the original byte length as its size while the content before any
appended truncation marker never exceeds the per-file limit. -/
theorem C4_size_budgets :
    (∀ (locResults : List (List ConventionFile)) (config : ConventionDiscoveryConfig),
      sumSizes (discoverConventionFilesWith locResults config) ≤ config.maxCombinedSize) ∧
    ∀ (buffer : List Nat) (maxSize : Nat) (r : LoadResult),
      loadFileContent (some buffer) maxSize = some r →
      r.size = buffer.length ∧
      ∃ pre, r.content = pre ++ (if r.truncated then truncationMarker else []) ∧
        pre.length ≤ maxSize := by
  constructor
  · intro locResults config
    refine le_trans (deduplicateContent_sumSizes_le _ _) ?_
    simpa using collectLocations_le config.maxCombinedSize locResults 0 (Nat.zero_le _)
  · intro buffer maxSize r hr
    have hr2 : (if !isValidTextFile buffer then none
        else if buffer.length > maxSize then
          some (⟨buffer.take maxSize ++ truncationMarker, buffer.length, true⟩ : LoadResult)
        else some ⟨buffer, buffer.length, false⟩) = some r := hr
    split at hr2
    · exact absurd hr2 (by simp)
    · split at hr2
      next hgt =>
        obtain rfl : (⟨buffer.take maxSize ++ truncationMarker, buffer.length, true⟩ : LoadResult) = r := by
          injection hr2
        refine ⟨rfl, buffer.take maxSize, by simp, ?_⟩
        simpa using min_le_left maxSize buffer.length
      next hle =>
        obtain rfl : (⟨buffer, buffer.length, false⟩ : LoadResult) = r := by
          injection hr2
        exact ⟨rfl, buffer, by simp, Nat.le_of_not_lt hle⟩

/-- Witness for C4 at a three-byte ASCII buffer loaded with a two-byte limit. -/
theorem C4_witness :
    (⟨[65, 66] ++ truncationMarker, 3, true⟩ : LoadResult).size = 3 ∧
    ∃ pre, (⟨[65, 66] ++ truncationMarker, 3, true⟩ : LoadResult).content =
        pre ++ (if (⟨[65, 66] ++ truncationMarker, 3, true⟩ : LoadResult).truncated
          then truncationMarker else []) ∧ pre.length ≤ 2 :=
  C4_size_budgets.2 [65, 66, 67] 2 ⟨[65, 66] ++ truncationMarker, 3, true⟩ (by decide)

/-- C8: convention deduplication is idempotent for every file list and every
priority order. -/
theorem C8_dedup_idempotent (files : List ConventionFile)
    (priorityOrder : List ConventionType) :
    deduplicateContent (deduplicateContent files priorityOrder) priorityOrder =
      deduplicateContent files priorityOrder := by
  by_cases h : files.length ≤ 1
  · have hinner : deduplicateContent files priorityOrder = files := by
      rw [deduplicateContent, if_pos h]
    rw [hinner]
    exact hinner
  · have hinner : deduplicateContent files priorityOrder =
        dedupScan [] (files.insertionSort (priorityLE priorityOrder)) := by
      rw [deduplicateContent, if_neg h]
    set d := deduplicateContent files priorityOrder with hd
    by_cases h2 : d.length ≤ 1
    · rw [deduplicateContent, if_pos h2]
    · rw [deduplicateContent, if_neg h2]
      have hsorted : d.Sorted (priorityLE priorityOrder) := by
        rw [hinner]
        exact List.Pairwise.sublist (dedupScan_sublist [] _)
          (List.sorted_insertionSort (priorityLE priorityOrder) files)
      rw [List.Sorted.insertionSort_eq hsorted]
      refine dedupScan_id [] d ?_ (fun f _ hin => List.not_mem_nil _ hin)
      rw [hinner]
      exact dedupScan_nodupNorm [] _

/-- C10: with source markers disabled, two or more convention files are
combined by joining their raw contents, in order, with the fixed separator. -/
theorem C10_combine_no_markers (files : List ConventionFile) (h : 2 ≤ files.length) :
    combineConventions files false =
      String.intercalate "\n\n---\n\n" (files.map (·.content)) := by
  match files with
  | [] => simp at h
  | [f] => simp at h
  | f :: g :: rest =>
    show combineConventions (f :: g :: rest) false = _
    simp [combineConventions]

/-- Witness for C10 at two concrete files. -/
theorem C10_witness :
    combineConventions [⟨"p1", .claudeMd, 1, "a"⟩, ⟨"p2", .cursorrules, 1, "b"⟩] false =
      "a\n\n---\n\nb" := by
  have h := C10_combine_no_markers
    [⟨"p1", .claudeMd, 1, "a"⟩, ⟨"p2", .cursorrules, 1, "b"⟩] (by decide)
  rw [h]
  decide

/-! ### Configuration data model (src/config.ts) -/

/-- Coverage threshold configuration. -/
structure CoverageThresholds where
  lines : Nat
  statements : Nat
  functions : Nat
  branches : Nat
  deriving DecidableEq, Repr

/-- Check configuration - which checks to run. The interface declares exactly
the four fields rules, typecheck, tests and coverage. -/
structure ChecksConfig where
  rules : Bool
  typecheck : Bool
  tests : Bool
  coverage : Bool
  deriving DecidableEq, Repr

/-- Commands configuration - scripts to run for each check. -/
structure CommandsConfig where
  typecheck : String
  test : String
  testCoverage : String
  testRelated : String
  testCoverageRelated : String
  deriving DecidableEq, Repr

/-- Coverage scope configuration - include and exclude pattern lists; a
pattern is a glob string or a regex string tagged with the regex marker. -/
structure CoverageScopeConfig where
  «include» : List String
  «exclude» : List String
  deriving DecidableEq, Repr

/-- Detailed rules guidance for the fixing agent. -/
structure RulesGuidance where
  apiRoutes : Option (List String)
  reactComponents : Option (List String)
  hooks : Option (List String)
  testFiles : Option (List String)
  allFiles : Option (List String)
  deriving DecidableEq, Repr

/-- Full configuration. -/
structure BulletproofConfig where
  model : String
  maxTurns : Nat
  coverageThresholds : CoverageThresholds
  coverageScope : CoverageScopeConfig
  coveragePreset : Option String
  checks : ChecksConfig
  commands : CommandsConfig
  rulesFile : String
  systemPrompt : Option String
  additionalInstructions : Option String
  rulesGuidance : Option RulesGuidance
  deriving DecidableEq, Repr

/-- Vapi Next.js preset coverage scope patterns. -/
def VAPI_NEXTJS_COVERAGE_SCOPE : CoverageScopeConfig :=
  ⟨["regex:^src/app/.*\\.(ts|tsx)$",
    "regex:^src/components/.*\\.(ts|tsx)$",
    "regex:^src/hooks/.*\\.(ts|tsx)$",
    "regex:^src/lib/.*\\.ts$"],
   ["regex:^src/test/",
    "regex:\\.test\\.(ts|tsx)$",
    "regex:\\.spec\\.(ts|tsx)$",
    "regex:/types/",
    "regex:\\.d\\.ts$",
    "regex:/layout\\.tsx$",
    "regex:/page\\.tsx$",
    "regex:^src/components/ui/[^/]+\\.tsx$",
    "regex:^src/lib/api/generate-mcp-tools\\.ts$",
    "regex:/index\\.ts$",
    "regex:^src/app/api/auth/\\[\\.\\.\\.nextauth\\]/route\\.ts$"]⟩

/-- Default Vapi-specific rules guidance. -/
def DEFAULT_VAPI_RULES_GUIDANCE : RulesGuidance :=
  ⟨some ["Uses `authenticateRequestWithPermissions` for auth",
         "Emits SSE events for all create/update/delete operations (`emitEvent`)",
         "Returns proper HTTP status codes (200, 201, 400, 401, 403, 404, 500)",
         "Has corresponding tests in src/test/api/"],
   some ["Uses existing UI components from src/components/ui/ (Button, Card, Badge, etc.)",
         "Uses `cn()` for className merging",
         "Uses `@/` path aliases (never relative imports like ../../)",
         "Loading states use skeleton components",
         "Detail/nested pages use `DetailPageHeader` with back button",
         "Mutations use `useOptimisticMutation` hook",
         "Links prefetch on hover"],
   some ["Custom hooks follow use* naming convention",
         "Uses proper TypeScript types (no `any`)"],
   some ["Located in src/test/ mirroring source path",
         "Tests auth (401), validation (400), happy path, and error cases",
         "Uses vi.mock() before imports",
         "Has beforeEach with vi.resetAllMocks()"],
   some ["No hardcoded values (use constants)",
         "Console logs use context prefixes like [API], [SSE], [Auth]",
         "TypeScript types are explicit (no `any`)",
         "Import order follows: React > Next > External > Internal hooks > Components > Utils > Types"]⟩

/-- Default configuration values. -/
def DEFAULT_CONFIG : BulletproofConfig :=
  { model := "claude-opus-4-5-20251101"
    maxTurns := 50
    coverageThresholds := ⟨90, 90, 78, 80⟩
    coverageScope :=
      ⟨["src/**/*.ts", "src/**/*.tsx"],
       ["src/test/**", "**/*.test.ts", "**/*.test.tsx", "**/*.spec.ts", "**/*.spec.tsx",
        "**/types/**", "**/*.d.ts"]⟩
    coveragePreset := none
    checks := ⟨true, true, true, true⟩
    commands := ⟨"npm run typecheck", "npm run test", "npm run test:coverage:ci",
      "npm run test:related", "npm run test:coverage:related"⟩
    rulesFile := ".cursorrules"
    systemPrompt := none
    additionalInstructions := none
    rulesGuidance := some DEFAULT_VAPI_RULES_GUIDANCE }

/-! ### Pattern translation and matching (src/config.ts) -/

/-- Regex metacharacters escaped by the glob translation (the character class
of the escaping replace: dot, plus, caret, dollar, both curly braces, both
parentheses, pipe, both square brackets, backslash). -/
def REGEX_METACHARS : List Char :=
  ['.', '+', '^', '$', Char.ofNat 123, Char.ofNat 125, '(', ')', '|', '[', ']', '\\']

/-- Escape of one character: metacharacters gain a leading backslash. -/
def escapeChar (c : Char) : List Char :=
  if REGEX_METACHARS.contains c then ['\\', c] else [c]

/-- Escape the regex metacharacters of a pattern, character by character. -/
def escapeRegexChars (p : List Char) : List Char := (p.map escapeChar).flatten

/-- One global replacement pass: replace every non-overlapping occurrence of
pat by rep scanning left to right, the behaviour of a global replace. The fuel
argument is an upper bound on the number of steps; the wrapper fixes it to the
length of the scanned list, which never runs out. -/
def replaceAllFuel (pat rep : List Char) : Nat → List Char → List Char
  | _, [] => []
  | 0, s => s
  | fuel + 1, c :: cs =>
    if pat.isPrefixOf (c :: cs) && !pat.isEmpty then
      rep ++ replaceAllFuel pat rep fuel ((c :: cs).drop pat.length)
    else
      c :: replaceAllFuel pat rep fuel cs

/-- Global replacement of pat by rep inside s. -/
def replaceAll (pat rep s : List Char) : List Char := replaceAllFuel pat rep s.length s

/-- The globstar placeholder written into the pattern between the replacement
passes of the translation. -/
def GLOBSTAR : List Char := "<<<GLOBSTAR>>>".data

/-- The compiled pattern source: either a raw regex source (from a tagged
pattern, used unanchored and untranslated) or the body of an anchored glob
translation (the constructor stands for the body wrapped between the start
and end anchors). -/
inductive RegexSrc
  | raw (src : String)
  | anchored (body : String)
  deriving DecidableEq, Repr

/-- Translate a coverage pattern to regex source following the source chain:
a regex-tagged pattern is passed through after the tag; a glob pattern has its
metacharacters escaped, double stars exchanged for the placeholder, single
stars expanded to the segment wildcard, and the placeholder expanded to the
full wildcard, and the result is anchored. -/
def patternToRegexSource (pattern : String) : RegexSrc :=
  if "regex:".data.isPrefixOf pattern.data then .raw ⟨pattern.data.drop 6⟩
  else
    .anchored ⟨replaceAll GLOBSTAR ".*".data
      (replaceAll ['*'] "[^/]*".data
        (replaceAll ['*', '*'] GLOBSTAR
          (escapeRegexChars pattern.data)))⟩

/-- Glob tokens: a literal character, the single-star segment wildcard, the
double-star full wildcard. -/
inductive GlobTok
  | lit (c : Char)
  | star
  | starstar
  deriving DecidableEq, Repr

/-- Parse a glob pattern into tokens: double star first, then single star,
then a literal character. -/
def globTokens : List Char → List GlobTok
  | [] => []
  | '*' :: '*' :: rest => .starstar :: globTokens rest
  | '*' :: rest => .star :: globTokens rest
  | c :: rest => .lit c :: globTokens rest

/-- Regex source text of one token: the escaped literal, the segment wildcard
class, or the full wildcard. -/
def renderTok : GlobTok → List Char
  | .lit c => escapeChar c
  | .star => "[^/]*".data
  | .starstar => ".*".data

/-- Regex source text of a token list. -/
def renderToks (ts : List GlobTok) : List Char := (ts.map renderTok).flatten

/-- Modelled from the spec: the translation as the spec words it, escaping
the metacharacters of the glob pattern and replacing every double star by the
full-path wildcard and every remaining single star by the same-segment
wildcard, anchored. Compared against patternToRegexSource, the translation
embedded from the code. -/
def specPatternTranslation (pattern : String) : RegexSrc :=
  if "regex:".data.isPrefixOf pattern.data then .raw ⟨pattern.data.drop 6⟩
  else .anchored ⟨renderToks (globTokens pattern.data)⟩

/-- Suffixes of a character list reachable by deleting characters other than
the path separator from the front: the strings a segment wildcard can skip. -/
def segSuffixes : List Char → List (List Char)
  | [] => [[]]
  | c :: cs => (c :: cs) :: (if c = '/' then [] else segSuffixes cs)

/-- Anchored matching of glob tokens against a character list: a literal
consumes one equal character, the segment wildcard skips any run without a
path separator, the full wildcard skips any run, and the whole list must be
consumed. -/
def globMatch : List GlobTok → List Char → Bool
  | [], cs => cs.isEmpty
  | .lit _ :: _, [] => false
  | .lit c :: ts, d :: ds => c == d && globMatch ts ds
  | .star :: ts, cs => (segSuffixes cs).any fun s => globMatch ts s
  | .starstar :: ts, cs => cs.tails.any fun s => globMatch ts s

/-- The compiled matcher of a coverage pattern. A regex-tagged pattern is
matched by the external regex engine, abstracted as the oracle argument; a
glob pattern is matched by the anchored token semantics of its translation. -/
def patternTest (oracle : String → String → Bool) (pattern : String) (file : String) : Bool :=
  if "regex:".data.isPrefixOf pattern.data then oracle (⟨pattern.data.drop 6⟩ : String) file
  else globMatch (globTokens pattern.data) file.data

/-- Whether a file matches the coverage scope patterns: false unless it
matches at least one include pattern, then true unless it also matches an
exclude pattern. -/
def isInCoverageScope (oracle : String → String → Bool) (file : String)
    (scope : CoverageScopeConfig) : Bool :=
  let matchesInclude := scope.include.any fun pattern => patternTest oracle pattern file
  if !matchesInclude then false
  else !(scope.exclude.any fun pattern => patternTest oracle pattern file)

/-! ### Git utilities (src/git/utils.ts) -/

/-- Split a character list at newline characters, as split with the newline
separator does. -/
def splitOnNewline : List Char → List (List Char)
  | [] => [[]]
  | c :: cs =>
    let r := splitOnNewline cs
    if c = '\n' then [] :: r
    else
      match r with
      | [] => [[c]]
      | h :: t => (c :: h) :: t

/-- Remove whitespace from both ends of a character list, as trim does. -/
def trimChars (l : List Char) : List Char :=
  ((l.dropWhile Char.isWhitespace).reverse.dropWhile Char.isWhitespace).reverse

/-- List of changed files: the command output is trimmed, split at newlines
and empty entries are dropped; a raised git command is caught and yields the
empty list. The process invocation is abstracted into the argument. -/
def getChangedFiles (raw : Except String String) : List String :=
  match raw with
  | .error _ => []
  | .ok output =>
    ((splitOnNewline (trimChars output.data)).map fun l => (⟨l⟩ : String)).filter
      fun f => f.length > 0

/-- Match a maximal digit run followed by the given word at the head of the
list, returning the parsed number and the rest after the word. -/
def matchNumWord (word : List Char) (cs : List Char) : Option (Nat × List Char) :=
  let ds := cs.takeWhile Char.isDigit
  let rest := cs.dropWhile Char.isDigit
  if ds.isEmpty then none
  else if word.isPrefixOf rest then
    some (ds.foldl (fun acc c => acc * 10 + (c.toNat - 48)) 0, rest.drop word.length)
  else none

/-- Find a digits-then-word match further along the same line: the scan stops
at a newline, which the lazy dot of the stats regex cannot cross. -/
def findNumWordInLine (word : List Char) : List Char → Option Nat
  | [] => none
  | c :: cs =>
    match matchNumWord word (c :: cs) with
    | some (n, _) => some n
    | none => if c = '\n' then none else findNumWordInLine word cs

/-- Search the shortstat output for an insertion count followed on the same
line by a deletion count, retrying later insertion positions on failure as
the backtracking regex engine would. -/
def statsSearch : List Char → Option (Nat × Nat)
  | [] => none
  | c :: cs =>
    match matchNumWord " insertion".data (c :: cs) with
    | some (a, rest) =>
      match findNumWordInLine " deletion".data rest with
      | some d => some (a, d)
      | none => statsSearch cs
    | none => statsSearch cs

/-- Diff stats: additions and deletions parsed from the shortstat output with
the insertion-deletion regex; no match, as well as a caught git error, yields
zero counts. -/
def getDiffStats (raw : Except String String) : Nat × Nat :=
  match raw with
  | .error _ => (0, 0)
  | .ok output =>
    match statsSearch output.data with
    | some st => st
    | none => (0, 0)

/-! ### Diff analysis (src/diff/analyzer.ts) -/

/-- Categorized file lists. -/
structure FileCategories where
  docs : List String
  config : List String
  scripts : List String
  tests : List String
  types : List String
  src : List String
  coveredSrc : List String
  deriving DecidableEq, Repr

/-- Result of diff analysis. -/
structure DiffAnalysis where
  files : List String
  additions : Nat
  deletions : Nat
  categories : FileCategories
  checks : ChecksConfig
  useRelatedTests : Bool
  relatedFiles : List String
  reason : String
  deriving DecidableEq, Repr

/-- One of the file categorization buckets. -/
inductive FileCategory
  | docs
  | config
  | scripts
  | tests
  | types
  | src
  deriving DecidableEq, Repr

/-- The docs file patterns: markdown or text extension, or the docs tree. -/
def matchesDocs (f : String) : Bool :=
  strEndsWith f ".md" || strEndsWith f ".txt" || strStartsWith f "docs/"

/-- The config file patterns: config-suffixed sources, data files, and three
exact dotfile names. -/
def matchesConfig (f : String) : Bool :=
  strEndsWith f ".config.ts" || strEndsWith f ".config.js" ||
  strEndsWith f ".config.mjs" || strEndsWith f ".config.mts" ||
  strEndsWith f ".json" || strEndsWith f ".yml" || strEndsWith f ".yaml" ||
  f == ".cursorrules" || f == ".gitignore" || f == ".eslintrc.json"

/-- The scripts file patterns: four directory trees and shell files. -/
def matchesScripts (f : String) : Bool :=
  strStartsWith f "scripts/" || strStartsWith f "slack-listener/" ||
  strStartsWith f "mcp-server/" || strStartsWith f "desktop/" || strEndsWith f ".sh"

/-- The test file patterns. -/
def matchesTests (f : String) : Bool :=
  strHasSub f ".test." || strHasSub f ".spec." || strStartsWith f "src/test/"

/-- The type definition file patterns. -/
def matchesTypes (f : String) : Bool :=
  strEndsWith f ".d.ts" || strStartsWith f "src/types/"

/-- The source file patterns. -/
def matchesSrc (f : String) : Bool :=
  strEndsWith f ".ts" || strEndsWith f ".tsx" || strEndsWith f ".js" || strEndsWith f ".jsx"

/-- Categorize a file by its path: the first matching category in priority
order wins; a source file is additionally tested against the coverage scope. -/
def categorizeFile (oracle : String → String → Bool) (coverageScope : CoverageScopeConfig)
    (file : String) : Option FileCategory × Bool :=
  if matchesDocs file then (some .docs, false)
  else if matchesConfig file then (some .config, false)
  else if matchesScripts file then (some .scripts, false)
  else if matchesTests file then (some .tests, false)
  else if matchesTypes file then (some .types, false)
  else if matchesSrc file then (some .src, isInCoverageScope oracle file coverageScope)
  else (none, false)

/-- Empty categorized file lists. -/
def emptyCategories : FileCategories := ⟨[], [], [], [], [], [], []⟩

/-- Push one categorized file into the category lists; an in-scope source file
is also pushed into coveredSrc. -/
def pushCategory (cats : FileCategories) (file : String) :
    Option FileCategory × Bool → FileCategories
  | (none, _) => cats
  | (some .docs, _) => { cats with docs := cats.docs ++ [file] }
  | (some .config, _) => { cats with config := cats.config ++ [file] }
  | (some .scripts, _) => { cats with scripts := cats.scripts ++ [file] }
  | (some .tests, _) => { cats with tests := cats.tests ++ [file] }
  | (some .types, _) => { cats with types := cats.types ++ [file] }
  | (some .src, inCoverage) =>
    if inCoverage then
      { cats with src := cats.src ++ [file], coveredSrc := cats.coveredSrc ++ [file] }
    else { cats with src := cats.src ++ [file] }

/-- Categorize all changed files in order. -/
def categorizeFiles (oracle : String → String → Bool) (coverageScope : CoverageScopeConfig)
    (files : List String) : FileCategories :=
  files.foldl (fun cats f => pushCategory cats f (categorizeFile oracle coverageScope f))
    emptyCategories

/-- Plural suffix used in the reason strings. -/
def plural (n : Nat) : String := if n > 1 then "s" else ""

/-- Analyze a diff and determine which checks to run. The two version-control
queries of the source are abstracted into the two query arguments; an error
value stands for the query raising, which the surrounding try-catch of the
source turns into the fallback result with the unmodified configured checks
(a failing stats query keeps the already assigned file list, as in the
source). This analysis never raises: it is a total function. -/
def analyzeDiffWith (oracle : String → String → Bool) (config : BulletproofConfig)
    (filesQ : Except String (List String)) (statsQ : Except String (Nat × Nat)) : DiffAnalysis :=
  match filesQ with
  | .error _ =>
    ⟨[], 0, 0, emptyCategories, config.checks, false, [], "Full checks (could not analyze diff)"⟩
  | .ok files =>
    match statsQ with
    | .error _ =>
      ⟨files, 0, 0, emptyCategories, config.checks, false, [],
        "Full checks (could not analyze diff)"⟩
    | .ok (additions, deletions) =>
      let categories := categorizeFiles oracle config.coverageScope files
      let totalLines := additions + deletions
      let srcFiles := categories.src.length
      let coveredFiles := categories.coveredSrc.length
      let testFiles := categories.tests.length
      let relatedCandidates :=
        (categories.src ++ categories.tests).filter fun f => strStartsWith f "src/"
      let shouldUseRelated := decide (relatedCandidates.length > 0) &&
        decide (relatedCandidates.length ≤ 10) && decide (totalLines < 500)
      let related0 := if shouldUseRelated then relatedCandidates else []
      if files.length = categories.docs.length ∧ files.length > 0 then
        ⟨files, additions, deletions, categories, ⟨true, false, false, false⟩,
          shouldUseRelated, related0,
          "Docs only (" ++ toString files.length ++ " file" ++ plural files.length ++
            ") - rules check only"⟩
      else if files.length = categories.config.length ∧ files.length > 0 then
        ⟨files, additions, deletions, categories, ⟨true, true, false, false⟩,
          shouldUseRelated, related0,
          "Config only (" ++ toString files.length ++ " file" ++ plural files.length ++
            ") - skip tests"⟩
      else if files.length = categories.scripts.length ∧ files.length > 0 then
        ⟨files, additions, deletions, categories, ⟨true, true, true, false⟩,
          shouldUseRelated, related0,
          "Scripts only (" ++ toString files.length ++ " file" ++ plural files.length ++
            ") - skip coverage"⟩
      else if files.length = testFiles ∧ testFiles > 0 then
        ⟨files, additions, deletions, categories, ⟨true, true, true, false⟩,
          true, categories.tests,
          "Tests only (" ++ toString testFiles ++ " file" ++ plural testFiles ++
            ") - run changed tests only"⟩
      else if coveredFiles = 0 then
        ⟨files, additions, deletions, categories, ⟨true, true, true, false⟩,
          shouldUseRelated, related0,
          if srcFiles > 0 then
            toString srcFiles ++ " file" ++ plural srcFiles ++
              " changed (not in coverage scope) - skip coverage"
          else
            "No covered code changed (" ++ toString totalLines ++ " lines) - skip coverage"⟩
      else if totalLines < 200 ∧ coveredFiles ≤ 3 then
        ⟨files, additions, deletions, categories, { config.checks with coverage := false },
          true, related0,
          "Small diff (" ++ toString coveredFiles ++ " covered file" ++ plural coveredFiles ++
            ") - related tests only"⟩
      else if totalLines < 500 ∧ coveredFiles ≤ 10 then
        ⟨files, additions, deletions, categories, config.checks, true, related0,
          "Medium diff (" ++ toString coveredFiles ++ " covered file" ++ plural coveredFiles ++
            ") - related tests + coverage"⟩
      else
        ⟨files, additions, deletions, categories, config.checks, false, [],
          "Large diff (" ++ toString coveredFiles ++ " covered file" ++ plural coveredFiles ++
            ", " ++ toString totalLines ++ " lines) - full test suite"⟩

/-- Full diff analysis over the raw git command outcomes: the git helpers
catch their own errors and return an empty list and zero counts, so the
queries they hand to the analysis body always succeed. -/
def analyzeDiff (oracle : String → String → Bool) (config : BulletproofConfig)
    (rawFiles rawStats : Except String String) : DiffAnalysis :=
  analyzeDiffWith oracle config (.ok (getChangedFiles rawFiles)) (.ok (getDiffStats rawStats))

/-! ### Claim C1, C2 and C9 theorems -/

/-- C1: when reading version-control state inside the analysis raises, the
returned analysis keeps the configured default checks unmodified and reports
the could-not-analyze reason. The embedded analysis is a total function, so
the call itself never raises. -/
theorem C1_fail_open (oracle : String → String → Bool) (config : BulletproofConfig)
    (filesQ : Except String (List String)) (statsQ : Except String (Nat × Nat))
    (h : (∃ e, filesQ = .error e) ∨ (∃ e, statsQ = .error e)) :
    (analyzeDiffWith oracle config filesQ statsQ).checks = config.checks ∧
    (analyzeDiffWith oracle config filesQ statsQ).reason =
      "Full checks (could not analyze diff)" := by
  rcases h with ⟨e, rfl⟩ | ⟨e, rfl⟩
  · exact ⟨rfl, rfl⟩
  · cases filesQ with
    | error e2 => exact ⟨rfl, rfl⟩
    | ok files => exact ⟨rfl, rfl⟩

/-- Witness for C1 at a concrete raised changed-files query. -/
theorem C1_witness :
    (analyzeDiffWith (fun _ _ => false) DEFAULT_CONFIG
      (.error "fatal: not a git repository") (.ok (0, 0))).checks = DEFAULT_CONFIG.checks ∧
    (analyzeDiffWith (fun _ _ => false) DEFAULT_CONFIG
      (.error "fatal: not a git repository") (.ok (0, 0))).reason =
      "Full checks (could not analyze diff)" :=
  C1_fail_open (fun _ _ => false) DEFAULT_CONFIG _ _ (Or.inl ⟨_, rfl⟩)

/-- The field names declared by the checks record. -/
def checksConfigFields : List String := ["rules", "typecheck", "tests", "coverage"]

/-- The seven check names the specification enumerates for the checks field. -/
def specSevenChecks : List String :=
  ["rules", "lint", "format", "typecheck", "build", "tests", "coverage"]

/-- Field lookup on the checks record, modelling property access on the
underlying object: the four declared fields are present, every other name is
absent. -/
def ChecksConfig.lookupField (c : ChecksConfig) (name : String) : Option Bool :=
  if name = "rules" then some c.rules
  else if name = "typecheck" then some c.typecheck
  else if name = "tests" then some c.tests
  else if name = "coverage" then some c.coverage
  else none

/-- C2 counterexample: the checks assignment of an analysis has no lint entry,
so it is not a full assignment over the seven-name enumeration of the claim. -/
theorem C2_counterexample :
    ¬ ∀ name ∈ specSevenChecks,
      ((analyzeDiffWith (fun _ _ => false) DEFAULT_CONFIG (.ok []) (.ok (0, 0))).checks.lookupField
        name).isSome = true :=
  fun h => absurd (h "lint" (by decide)) (by decide)

/-- C2 amended: for every analysis, the checks field is a full assignment over
exactly the four-name check enumeration rules, typecheck, tests, coverage -
each of these present with a boolean value, every other name absent. -/
theorem C2_checks_full_assignment (oracle : String → String → Bool)
    (config : BulletproofConfig) (filesQ : Except String (List String))
    (statsQ : Except String (Nat × Nat)) (name : String) :
    ((analyzeDiffWith oracle config filesQ statsQ).checks.lookupField name).isSome = true ↔
      name ∈ checksConfigFields := by
  have h : ∀ c : ChecksConfig, ((c.lookupField name).isSome = true ↔ name ∈ checksConfigFields) := by
    intro c
    unfold ChecksConfig.lookupField checksConfigFields
    split_ifs with h1 h2 h3 h4 <;> simp_all
  exact h _

/-- C9: an empty changed-file list with zero counts falls through to the
no-covered-files branch, with the fixed checks record and the zero-lines
reason, for every configuration; and because the git helpers catch their own
errors and return an empty list and zero counts, a version-control failure
surfaces through the full analysis as exactly this empty-diff result, whose
reason differs from the could-not-analyze fallback. -/
theorem C9_empty_diff_not_fallback (oracle : String → String → Bool)
    (config : BulletproofConfig) :
    ((analyzeDiffWith oracle config (.ok []) (.ok (0, 0))).checks = ⟨true, true, true, false⟩ ∧
      (analyzeDiffWith oracle config (.ok []) (.ok (0, 0))).reason =
        "No covered code changed (0 lines) - skip coverage") ∧
    (∀ e1 e2 : String, analyzeDiff oracle config (.error e1) (.error e2) =
      analyzeDiffWith oracle config (.ok []) (.ok (0, 0))) ∧
    (analyzeDiffWith oracle config (.ok []) (.ok (0, 0))).reason ≠
      "Full checks (could not analyze diff)" := by
  refine ⟨⟨rfl, rfl⟩, fun e1 e2 => rfl, fun h => ?_⟩
  exact absurd (show ("No covered code changed (0 lines) - skip coverage" : String) =
    "Full checks (could not analyze diff)" from h) (by decide)

/-! ### Claim C6 theorem -/

theorem categorizeFiles_all_src (oracle : String → String → Bool) (scope : CoverageScopeConfig) :
    ∀ (files : List String) (cats : FileCategories),
      (∀ f ∈ files, categorizeFile oracle scope f = (some .src, true)) →
      files.foldl (fun cats f => pushCategory cats f (categorizeFile oracle scope f)) cats =
        { cats with src := cats.src ++ files, coveredSrc := cats.coveredSrc ++ files }
  | [], cats, _ => by simp
  | f :: rest, cats, h => by
    simp only [List.foldl_cons]
    rw [h f (List.mem_cons_self f rest)]
    show (rest.foldl _
      { cats with src := cats.src ++ [f], coveredSrc := cats.coveredSrc ++ [f] }) = _
    rw [categorizeFiles_all_src oracle scope rest _ (fun g hg => h g (List.mem_cons_of_mem f hg))]
    simp

/-- C6: a change of exactly four source files, all inside coverage scope, with
one hundred twenty changed lines takes the medium-diff branch: related tests
are enabled, the checks stay exactly as configured (coverage in particular),
and the reason is the medium-diff sentence with the covered file count. -/
theorem C6_medium_diff (oracle : String → String → Bool) (config : BulletproofConfig)
    (files : List String) (additions deletions : Nat)
    (hlen : files.length = 4)
    (hcat : ∀ f ∈ files, categorizeFile oracle config.coverageScope f = (some .src, true))
    (hlines : additions + deletions = 120) :
    (analyzeDiffWith oracle config (.ok files) (.ok (additions, deletions))).useRelatedTests = true ∧
    (analyzeDiffWith oracle config (.ok files) (.ok (additions, deletions))).checks = config.checks ∧
    (analyzeDiffWith oracle config (.ok files) (.ok (additions, deletions))).reason =
      "Medium diff (4 covered files) - related tests + coverage" := by
  have hcats : categorizeFiles oracle config.coverageScope files =
      { emptyCategories with src := files, coveredSrc := files } := by
    have h2 := categorizeFiles_all_src oracle config.coverageScope files emptyCategories hcat
    simpa [categorizeFiles, emptyCategories] using h2
  simp only [analyzeDiffWith, hcats, emptyCategories]
  simp only [hlen, hlines, List.length_nil]
  norm_num
  decide

/-- Witness for C6 at four concrete covered source files with one hundred
additions and twenty deletions under the default configuration. -/
theorem C6_witness :
    (analyzeDiffWith (fun _ _ => false) DEFAULT_CONFIG
      (.ok ["src/lib/a.ts", "src/lib/b.ts", "src/lib/c.ts", "src/lib/d.ts"])
      (.ok (100, 20))).useRelatedTests = true ∧
    (analyzeDiffWith (fun _ _ => false) DEFAULT_CONFIG
      (.ok ["src/lib/a.ts", "src/lib/b.ts", "src/lib/c.ts", "src/lib/d.ts"])
      (.ok (100, 20))).checks = DEFAULT_CONFIG.checks ∧
    (analyzeDiffWith (fun _ _ => false) DEFAULT_CONFIG
      (.ok ["src/lib/a.ts", "src/lib/b.ts", "src/lib/c.ts", "src/lib/d.ts"])
      (.ok (100, 20))).reason = "Medium diff (4 covered files) - related tests + coverage" :=
  C6_medium_diff (fun _ _ => false) DEFAULT_CONFIG
    ["src/lib/a.ts", "src/lib/b.ts", "src/lib/c.ts", "src/lib/d.ts"] 100 20
    (by decide) (by decide) (by decide)

/-! ### Lemmas for the pattern translation bridge -/

theorem replaceAllFuel_nil (pat rep : List Char) :
    ∀ fuel, replaceAllFuel pat rep fuel [] = []
  | 0 => rfl
  | _ + 1 => rfl

theorem replaceAllFuel_congr (pat rep : List Char) :
    ∀ (fuel1 fuel2 : Nat) (s : List Char), s.length ≤ fuel1 → s.length ≤ fuel2 →
      replaceAllFuel pat rep fuel1 s = replaceAllFuel pat rep fuel2 s
  | f1, f2, [], _, _ => by rw [replaceAllFuel_nil, replaceAllFuel_nil]
  | 0, _, c :: cs, h1, _ => by simp at h1
  | _, 0, c :: cs, _, h2 => by simp at h2
  | n1 + 1, n2 + 1, c :: cs, h1, h2 => by
    show (if pat.isPrefixOf (c :: cs) && !pat.isEmpty then
        rep ++ replaceAllFuel pat rep n1 ((c :: cs).drop pat.length)
      else c :: replaceAllFuel pat rep n1 cs) =
      (if pat.isPrefixOf (c :: cs) && !pat.isEmpty then
        rep ++ replaceAllFuel pat rep n2 ((c :: cs).drop pat.length)
      else c :: replaceAllFuel pat rep n2 cs)
    simp only [List.length_cons, Nat.add_le_add_iff_right] at h1 h2
    by_cases hcond : (pat.isPrefixOf (c :: cs) && !pat.isEmpty) = true
    · rw [if_pos hcond, if_pos hcond]
      congr 1
      have hplen : 1 ≤ pat.length := by
        cases pat with
        | nil => simp at hcond
        | cons a l => simp
      have hdrop : ((c :: cs).drop pat.length).length ≤ cs.length := by
        simp only [List.length_drop, List.length_cons]
        omega
      exact replaceAllFuel_congr pat rep n1 n2 _ (le_trans hdrop h1) (le_trans hdrop h2)
    · rw [if_neg hcond, if_neg hcond]
      rw [replaceAllFuel_congr pat rep n1 n2 cs h1 h2]

theorem replaceAll_cons (pat rep : List Char) (c : Char) (cs : List Char) :
    replaceAll pat rep (c :: cs) =
      if pat.isPrefixOf (c :: cs) && !pat.isEmpty then
        rep ++ replaceAll pat rep ((c :: cs).drop pat.length)
      else c :: replaceAll pat rep cs := by
  show replaceAllFuel pat rep (c :: cs).length (c :: cs) = _
  rw [show (c :: cs).length = cs.length + 1 from rfl]
  show (if pat.isPrefixOf (c :: cs) && !pat.isEmpty then
      rep ++ replaceAllFuel pat rep cs.length ((c :: cs).drop pat.length)
    else c :: replaceAllFuel pat rep cs.length cs) = _
  by_cases hcond : (pat.isPrefixOf (c :: cs) && !pat.isEmpty) = true
  · rw [if_pos hcond, if_pos hcond]
    congr 1
    have hplen : 1 ≤ pat.length := by
      cases pat with
      | nil => simp at hcond
      | cons a l => simp
    apply replaceAllFuel_congr
    · simp only [List.length_drop, List.length_cons]
      omega
    · exact le_refl _
  · rw [if_neg hcond, if_neg hcond]
    rfl



theorem isPrefixOf_eq_true_iff : ∀ (l1 l2 : List Char),
    l1.isPrefixOf l2 = true ↔ ∃ t, l1 ++ t = l2
  | [], l2 => by
    constructor
    · intro _
      exact ⟨l2, rfl⟩
    · intro _
      cases l2 <;> rfl
  | a :: l1, [] => by
    constructor
    · intro h
      exact absurd h Bool.false_ne_true
    · rintro ⟨t, ht⟩
      exact absurd ht (by simp)
  | a :: l1, b :: l2 => by
    show ((a == b) && l1.isPrefixOf l2) = true ↔ _
    rw [Bool.and_eq_true, beq_iff_eq]
    constructor
    · rintro ⟨rfl, h2⟩
      obtain ⟨t, rfl⟩ := (isPrefixOf_eq_true_iff l1 l2).mp h2
      exact ⟨t, rfl⟩
    · rintro ⟨t, ht⟩
      rw [List.cons_append, List.cons.injEq] at ht
      exact ⟨ht.1, (isPrefixOf_eq_true_iff l1 l2).mpr ⟨t, ht.2⟩⟩

theorem replaceAll_append_disjoint (pat rep : List Char) (hpat : pat ≠ []) :
    ∀ (l x : List Char), (∀ c ∈ l, pat.head? ≠ some c) →
      replaceAll pat rep (l ++ x) = l ++ replaceAll pat rep x
  | [], x, _ => by simp
  | c :: l, x, h => by
    rw [List.cons_append, replaceAll_cons]
    have hpre : pat.isPrefixOf (c :: (l ++ x)) = false := by
      apply Bool.eq_false_iff.mpr
      intro hcontra
      have hp := (isPrefixOf_eq_true_iff _ _).mp hcontra
      cases pat with
      | nil => exact hpat rfl
      | cons p0 ps =>
        obtain ⟨t, ht⟩ := hp
        rw [List.cons_append] at ht
        have hpc : p0 = c := by injection ht
        exact h c (List.mem_cons_self c l) (by rw [List.head?_cons, hpc])
    rw [hpre]
    simp only [Bool.false_and, Bool.false_eq_true, if_false]
    rw [replaceAll_append_disjoint pat rep hpat l x (fun d hd => h d (List.mem_cons_of_mem c hd)),
      List.cons_append]

theorem pass2_starstar (x : List Char) :
    replaceAll ['*', '*'] GLOBSTAR ('*' :: '*' :: x) =
      GLOBSTAR ++ replaceAll ['*', '*'] GLOBSTAR x := by
  rw [replaceAll_cons, if_pos]
  · rfl
  · rw [show (['*', '*'] : List Char).isPrefixOf ('*' :: '*' :: x) = true from
      (isPrefixOf_eq_true_iff _ _).mpr ⟨x, rfl⟩]
    rfl

theorem pass3_star (x : List Char) :
    replaceAll ['*'] "[^/]*".data ('*' :: x) =
      "[^/]*".data ++ replaceAll ['*'] "[^/]*".data x := by
  rw [replaceAll_cons, if_pos]
  · rfl
  · rw [show (['*'] : List Char).isPrefixOf ('*' :: x) = true from
      (isPrefixOf_eq_true_iff _ _).mpr ⟨x, rfl⟩]
    rfl

theorem pass4_globstar (x : List Char) :
    replaceAll GLOBSTAR ".*".data (GLOBSTAR ++ x) =
      ".*".data ++ replaceAll GLOBSTAR ".*".data x := by
  have h0 : GLOBSTAR ++ x = '<' :: ("<<GLOBSTAR>>>".data ++ x) := rfl
  rw [h0, replaceAll_cons, if_pos]
  · rfl
  · rw [show GLOBSTAR.isPrefixOf ('<' :: ("<<GLOBSTAR>>>".data ++ x)) = true from
      (isPrefixOf_eq_true_iff _ _).mpr ⟨x, rfl⟩]
    rfl



theorem escapeRegexChars_cons (c : Char) (rest : List Char) :
    escapeRegexChars (c :: rest) = escapeChar c ++ escapeRegexChars rest := by
  simp [escapeRegexChars]

theorem renderToks_cons (t : GlobTok) (ts : List GlobTok) :
    renderToks (t :: ts) = renderTok t ++ renderToks ts := by
  simp [renderToks]

theorem escapeChar_mem {c d : Char} (hd : d ∈ escapeChar c) : d = '\\' ∨ d = c := by
  unfold escapeChar at hd
  split at hd
  · rcases List.mem_cons.mp hd with rfl | hd2
    · exact Or.inl rfl
    · exact Or.inr (List.mem_singleton.mp hd2)
  · exact Or.inr (List.mem_singleton.mp hd)

theorem escapeRegexChars_head_ne_star :
    ∀ (rest : List Char), rest.head? ≠ some '*' →
      (escapeRegexChars rest).head? ≠ some '*'
  | [], _ => by simp [escapeRegexChars]
  | r :: rest, h => by
    rw [escapeRegexChars_cons]
    unfold escapeChar
    split
    · simp
    · simp only [List.singleton_append, List.head?_cons, ne_eq, Option.some.injEq]
      intro e
      exact h (by rw [List.head?_cons, e])

theorem glob_passes_eq : ∀ (p : List Char), '<' ∉ p →
    replaceAll GLOBSTAR ".*".data
      (replaceAll ['*'] "[^/]*".data
        (replaceAll ['*', '*'] GLOBSTAR (escapeRegexChars p))) = renderToks (globTokens p) := by
  intro p hp
  induction p using globTokens.induct with
  | case1 => rfl
  | case2 rest ih =>
    have hptail : '<' ∉ rest := fun hh =>
      hp (List.mem_cons_of_mem _ (List.mem_cons_of_mem _ hh))
    have h1 : escapeRegexChars ('*' :: '*' :: rest) = '*' :: '*' :: escapeRegexChars rest := by
      rw [escapeRegexChars_cons, escapeRegexChars_cons]
      rfl
    rw [h1, pass2_starstar,
      replaceAll_append_disjoint ['*'] "[^/]*".data (by decide) GLOBSTAR _ (by decide),
      pass4_globstar, ih hptail]
    rfl
  | case3 rest hne ih =>
    have hptail : '<' ∉ rest := fun hh => hp (List.mem_cons_of_mem _ hh)
    have h1 : escapeRegexChars ('*' :: rest) = '*' :: escapeRegexChars rest := by
      rw [escapeRegexChars_cons]
      rfl
    have hrh : rest.head? ≠ some '*' := by
      cases rest with
      | nil => simp
      | cons r r2 =>
        simp only [List.head?_cons, ne_eq, Option.some.injEq]
        intro e
        exact hne r2 (by rw [e])
    have hnm : (['*', '*'] : List Char).isPrefixOf ('*' :: escapeRegexChars rest) = false := by
      apply Bool.eq_false_iff.mpr
      intro hcontra
      obtain ⟨t, ht⟩ := (isPrefixOf_eq_true_iff _ _).mp hcontra
      rw [List.cons_append, List.cons_append, List.nil_append, List.cons.injEq] at ht
      exact escapeRegexChars_head_ne_star rest hrh (by rw [← ht.2]; rfl)
    rw [h1, replaceAll_cons, if_neg (by rw [hnm]; simp), pass3_star,
      replaceAll_append_disjoint GLOBSTAR ".*".data (by decide) "[^/]*".data _ (by decide),
      ih hptail, globTokens.eq_3 rest hne, renderToks_cons]
    rfl
  | case4 c rest hne1 hne2 ih =>
    have hptail : '<' ∉ rest := fun hh => hp (List.mem_cons_of_mem _ hh)
    have hcstar : c ≠ '*' := fun e => hne2 e
    have hclt : c ≠ '<' := fun e => hp (e ▸ List.mem_cons_self c rest)
    have hm2 : ∀ d ∈ escapeChar c, (['*', '*'] : List Char).head? ≠ some d := by
      intro d hd e
      rcases escapeChar_mem hd with rfl | rfl
      · exact absurd e (by decide)
      · rw [List.head?_cons, Option.some.injEq] at e
        exact hcstar e.symm
    have hm3 : ∀ d ∈ escapeChar c, (['*'] : List Char).head? ≠ some d := by
      intro d hd e
      rcases escapeChar_mem hd with rfl | rfl
      · exact absurd e (by decide)
      · rw [List.head?_cons, Option.some.injEq] at e
        exact hcstar e.symm
    have hm4 : ∀ d ∈ escapeChar c, GLOBSTAR.head? ≠ some d := by
      intro d hd e
      rcases escapeChar_mem hd with rfl | rfl
      · exact absurd e (by decide)
      · have : GLOBSTAR.head? = some '<' := rfl
        rw [this, Option.some.injEq] at e
        exact hclt e.symm
    rw [escapeRegexChars_cons,
      replaceAll_append_disjoint ['*', '*'] GLOBSTAR (by decide) (escapeChar c) _ hm2,
      replaceAll_append_disjoint ['*'] "[^/]*".data (by decide) (escapeChar c) _ hm3,
      replaceAll_append_disjoint GLOBSTAR ".*".data (by decide) (escapeChar c) _ hm4,
      ih hptail, globTokens.eq_4 c rest hne1 hne2, renderToks_cons]
    rfl



theorem globMatch_starstar_all (cs : List Char) : globMatch [.starstar] cs = true := by
  show (cs.tails.any fun s => globMatch [] s) = true
  rw [List.any_eq_true]
  exact ⟨[], (List.mem_tails _ _).mpr List.nil_suffix, rfl⟩

theorem globMatch_star_iff (cs : List Char) : globMatch [.star] cs = true ↔ '/' ∉ cs := by
  induction cs with
  | nil => simp [globMatch, segSuffixes]
  | cons c cs ih =>
    show ((segSuffixes (c :: cs)).any fun s => globMatch [] s) = true ↔ _
    by_cases hc : c = '/'
    · subst hc
      simp [segSuffixes, globMatch]
    · rw [show segSuffixes (c :: cs) = (c :: cs) :: segSuffixes cs from by
        simp [segSuffixes, hc]]
      rw [List.any_cons]
      rw [show globMatch [] (c :: cs) = false from rfl]
      rw [Bool.false_or]
      rw [show ((segSuffixes cs).any fun s => globMatch [] s) = true ↔ '/' ∉ cs from ih]
      constructor
      · intro h hmem
        rcases List.mem_cons.mp hmem with e | hin
        · exact hc e.symm
        · exact h hin
      · intro h hin
        exact h (List.mem_cons_of_mem c hin)

theorem isInCoverageScope_iff (oracle : String → String → Bool) (file : String)
    (scope : CoverageScopeConfig) :
    isInCoverageScope oracle file scope = true ↔
      ((∃ pattern ∈ scope.include, patternTest oracle pattern file = true) ∧
        ∀ pattern ∈ scope.exclude, patternTest oracle pattern file = false) := by
  rw [show isInCoverageScope oracle file scope =
      (if !(scope.include.any fun pattern => patternTest oracle pattern file) then false
       else !(scope.exclude.any fun pattern => patternTest oracle pattern file)) from rfl]
  by_cases hinc : (scope.include.any fun pattern => patternTest oracle pattern file) = true
  · rw [hinc]
    simp only [Bool.not_true, Bool.false_eq_true, if_false]
    rw [List.any_eq_true] at hinc
    simp only [Bool.not_eq_true', List.any_eq_false, Bool.not_eq_true]
    exact ⟨fun hall => ⟨hinc, hall⟩, fun h => h.2⟩
  · have hfalse : (scope.include.any fun pattern => patternTest oracle pattern file) = false :=
      Bool.eq_false_iff.mpr hinc
    rw [hfalse]
    rw [List.any_eq_true] at hinc
    simp only [Bool.not_false, if_true]
    constructor
    · intro h
      exact absurd h (by simp)
    · intro ⟨hex, _⟩
      exact absurd hex hinc

theorem patternToRegexSource_bypass (r : String) :
    patternToRegexSource ("regex:" ++ r) = .raw r := by
  unfold patternToRegexSource
  rw [if_pos]
  · have hd : ("regex:" ++ r).data.drop 6 = r.data := by
      rw [String.data_append]
      rw [show (6 : Nat) = ("regex:".data).length from rfl, List.drop_left]
    rw [hd]
  · rw [String.data_append]
    exact (isPrefixOf_eq_true_iff _ _).mpr ⟨r.data, rfl⟩


/-! ### Claim C7 theorems -/

/-- C7 counterexample: at the concrete glob pattern that is the placeholder
token itself, the translation emits the full wildcard instead of the escaped
literal that escaping plus star replacement would produce, so the claim fails
as stated on that pattern. -/
theorem C7_counterexample :
    patternToRegexSource "<<<GLOBSTAR>>>" ≠ specPatternTranslation "<<<GLOBSTAR>>>" ∧
    patternToRegexSource "<<<GLOBSTAR>>>" = .anchored ".*" ∧
    specPatternTranslation "<<<GLOBSTAR>>>" = .anchored "<<<GLOBSTAR>>>" :=
  ⟨by decide, by decide, by decide⟩

/-- C7 amended: for every glob pattern without the placeholder character, the
translation equals the spec-worded translation (escape the metacharacters,
expand double stars to the full wildcard and single stars to the segment
wildcard, anchor the result); regex-tagged patterns bypass the translation
entirely; the full wildcard matches every string including ones with path
separators while the segment wildcard matches exactly the strings without a
separator; and a file is in coverage scope exactly when it matches at least
one include pattern and no exclude pattern. -/
theorem C7_pattern_translation :
    (∀ p : String, '<' ∉ p.data → ("regex:".data.isPrefixOf p.data) = false →
      patternToRegexSource p = specPatternTranslation p) ∧
    (∀ r : String, patternToRegexSource ("regex:" ++ r) = .raw r) ∧
    (∀ cs : List Char, globMatch [.starstar] cs = true) ∧
    (∀ cs : List Char, globMatch [.star] cs = true ↔ '/' ∉ cs) ∧
    (∀ (oracle : String → String → Bool) (file : String) (scope : CoverageScopeConfig),
      isInCoverageScope oracle file scope = true ↔
        ((∃ pattern ∈ scope.include, patternTest oracle pattern file = true) ∧
          ∀ pattern ∈ scope.exclude, patternTest oracle pattern file = false)) := by
  refine ⟨?_, patternToRegexSource_bypass, globMatch_starstar_all, globMatch_star_iff,
    isInCoverageScope_iff⟩
  intro p hp hreg
  unfold patternToRegexSource specPatternTranslation
  rw [if_neg (by rw [hreg]; exact Bool.false_ne_true), if_neg (by rw [hreg]; exact Bool.false_ne_true)]
  rw [glob_passes_eq p.data hp]

/-- Witness for C7 at a concrete glob pattern with both wildcards. -/
theorem C7_witness :
    patternToRegexSource "src/**/*.ts" = specPatternTranslation "src/**/*.ts" :=
  C7_pattern_translation.1 "src/**/*.ts" (by decide) (by decide)

end Bulletproof
